import Mathlib

/-!
Verification of the RFM dashboard and preprocessing logic of the
Optimizing-Retail-Banking-Strategies-Through-RFM-Based-Customer-Segmentation
repository.

The embedding models the two pandas scripts of the repository:

* `src/app.py` — the streamlit dashboard: a table of per-customer RFM records
  is loaded once, filtered by the selected `Segment` and `Cluster` values, and
  several aggregate views are derived from the filtered subset.
* `src/Notebooks/eda_preprocessing.py` — the preprocessing batch: date parsing
  with coercion of malformed cells to a null sentinel, `Age` derivation and
  filtering, and month bucketing.

Tables are lists of records; pandas `NaN`/`NaT` results are `Option.none`;
decimal arithmetic is modelled over `ℚ`; `Monetary`, `Recency`, `Frequency`
are integers as in the dataset.  pandas sorts are modelled as stable sorts
(`List.insertionSort`).
-/

/-- A row of the presentation-stage input table (`output/rfm_segmented.csv`):
one customer with precomputed RFM metrics and externally assigned cluster and
segment labels. -/
structure Record where
  CustomerID : String
  Recency : Int
  Frequency : Int
  Monetary : Int
  Cluster : Int
  Segment : String
deriving DecidableEq, Repr

/-- The filtered view of app.py line 38:
`df[(df['Segment'].isin(segments)) & (df['Cluster'].isin(clusters))]`. -/
def filtered_df (df : List Record) (segments : List String) (clusters : List Int) :
    List Record :=
  df.filter (fun r => segments.contains r.Segment && clusters.contains r.Cluster)

/-- `sorted(df['Segment'].unique())`: the distinct segment labels of a table in
ascending order (the default option list of the segment multiselect, and the
group keys of `groupby('Segment')`, which sorts keys ascending). -/
def uniqueSegments (df : List Record) : List String :=
  List.insertionSort (· ≤ ·) (df.map Record.Segment).dedup

/-- `sorted(df['Cluster'].unique())`: the distinct cluster labels of a table in
ascending order. -/
def uniqueClusters (df : List Record) : List Int :=
  List.insertionSort (· ≤ ·) (df.map Record.Cluster).dedup

/-- pandas `Series.mean()`: the arithmetic mean of a series, `NaN` (modelled as
`none`) when the series is empty. -/
def seriesMean (xs : List Int) : Option ℚ :=
  if xs.length = 0 then none else some ((xs.map (fun x => (x : ℚ))).sum / xs.length)

/-- The four KPI metrics of app.py lines 47-50. -/
structure KPIs where
  totalCustomers : Nat
  avgRecency : Option ℚ
  avgFrequency : Option ℚ
  avgMonetary : Option ℚ
deriving DecidableEq, Repr

/-- `len(filtered_df)` and the three `Series.mean()` KPI values. -/
def kpis (view : List Record) : KPIs where
  totalCustomers := view.length
  avgRecency := seriesMean (view.map Record.Recency)
  avgFrequency := seriesMean (view.map Record.Frequency)
  avgMonetary := seriesMean (view.map Record.Monetary)

/-- numpy `rint`: round to the nearest integer, ties to even (the rounding
used by pandas `.round`). -/
def rint (q : ℚ) : Int :=
  if Int.fract q = 1/2 then 2 * round (q / 2) else round q

/-- pandas `.round(1)`: round to one decimal place, ties to even. -/
def round1 (q : ℚ) : ℚ := (rint (10 * q) : ℚ) / 10

/-- A row of the segment composition table `comp_df` of app.py lines 88-93. -/
structure CompRow where
  Segment : String
  Customers : Nat
  TotalMonetary : Int
  pctCustomers : ℚ
  pctValue : ℚ
deriving DecidableEq, Repr

/-- `comp_df`: `filtered_df.groupby('Segment').agg({'CustomerID': 'count',
'Monetary': 'sum'})` with the two percentage columns
`comp_df['Customers'] / comp_df['Customers'].sum() * 100` and
`comp_df['Total Monetary'] / comp_df['Total Monetary'].sum() * 100`,
each `.round(1)`.  `groupby` lists each segment present in the view once, in
ascending key order. -/
def comp_df (view : List Record) : List CompRow :=
  let base := (uniqueSegments view).map (fun s =>
    (s, (view.filter (fun r => r.Segment == s)).length,
        ((view.filter (fun r => r.Segment == s)).map Record.Monetary).sum))
  let totC : ℚ := (base.map (fun g => ((g.2.1 : ℚ)))).sum
  let totM : ℚ := (base.map (fun g => ((g.2.2 : ℚ)))).sum
  base.map (fun g =>
    { Segment := g.1
      Customers := g.2.1
      TotalMonetary := g.2.2
      pctCustomers := round1 ((g.2.1 : ℚ) / totC * 100)
      pctValue := round1 ((g.2.2 : ℚ) / totM * 100) })

/-- Descending-by-`Monetary` order used by the top customers table. -/
def descMonetary (a b : Record) : Prop := b.Monetary ≤ a.Monetary

instance : DecidableRel descMonetary := fun a b => by
  unfold descMonetary; infer_instance

/-- One admissible implementation of
`filtered_df.sort_values(by='Monetary', ascending=False)` (app.py line 108),
used to keep the dashboard views executable.  The code's default
`kind='quicksort'` is not a stable sort, so the program fixes no tie order;
its guarantee is only `SortValuesSpec` below, and the sorting claim is judged
against that contract, not against this particular refinement. -/
def sort_values_Monetary (view : List Record) : List Record :=
  List.insertionSort descMonetary view

/-- The contract of `sort_values(by='Monetary', ascending=False)` with the
default (unstable) sort kind: the output is some permutation of the input
that is descending in `Monetary`.  The order among rows with equal `Monetary`
is unspecified. -/
def SortValuesSpec (view out : List Record) : Prop :=
  out.Perm view ∧ List.Sorted descMonetary out

/-- `top_customers`: the first 10 rows of the view sorted by `Monetary`
descending (app.py line 108). -/
def top_customers (view : List Record) : List Record :=
  (sort_values_Monetary view).take 10

/-- `cluster_counts`: `filtered_df['Cluster'].value_counts().sort_index()`
(app.py line 56). -/
def cluster_counts (view : List Record) : List (Int × Nat) :=
  (uniqueClusters view).map (fun c => (c, (view.filter (fun r => r.Cluster == c)).length))

/-- Descending order on optional mean values, `NaN` (`none`) last, as
`sort_values(ascending=False)` orders them. -/
def descOptMean (a b : String × Option ℚ) : Prop :=
  match a.2, b.2 with
  | some x, some y => y ≤ x
  | some _, none => True
  | none, some _ => False
  | none, none => True

instance : DecidableRel descOptMean := fun a b => by
  rcases a with ⟨_, _ | x⟩ <;> rcases b with ⟨_, _ | y⟩ <;>
    simp [descOptMean] <;> infer_instance

/-- `seg_mon`: `filtered_df.groupby('Segment')['Monetary'].mean()
.sort_values(ascending=False)` (app.py line 70); `NaN` means sort last. -/
def seg_mon (view : List Record) : List (String × Option ℚ) :=
  List.insertionSort descOptMean
    ((uniqueSegments view).map (fun s =>
      (s, seriesMean ((view.filter (fun r => r.Segment == s)).map Record.Monetary))))

/-- Descending order on counts, used by `value_counts()`. -/
def descCount (a b : String × Nat) : Prop := b.2 ≤ a.2

instance : DecidableRel descCount := fun a b => by
  unfold descCount; infer_instance

/-- `seg_dist`: `filtered_df['Segment'].value_counts()` (app.py line 83),
counts in descending order. -/
def seg_dist (view : List Record) : List (String × Nat) :=
  List.insertionSort descCount
    ((view.map Record.Segment).dedup.map (fun s =>
      (s, (view.filter (fun r => r.Segment == s)).length)))

/-- `rfm_matrix`:
`filtered_df.groupby('Cluster')[['Recency','Frequency','Monetary']].mean().round(1)`
(app.py line 159). -/
def rfm_matrix (view : List Record) : List (Int × Option ℚ × Option ℚ × Option ℚ) :=
  (uniqueClusters view).map (fun c =>
    let g := view.filter (fun r => r.Cluster == c)
    (c, (seriesMean (g.map Record.Recency)).map round1,
        (seriesMean (g.map Record.Frequency)).map round1,
        (seriesMean (g.map Record.Monetary)).map round1))

/-- The fixed `cluster_descriptions` dictionary of app.py lines 141-146,
with the `.get` default for unknown keys. -/
def cluster_descriptions (c : Int) : String :=
  if c = 0 then "💰 High-value, frequent, recent – VIPs."
  else if c = 1 then "⏳ Recent but less frequent – responsive to re-engagement."
  else if c = 2 then "📉 Low activity and value – low ROI or new."
  else if c = 3 then "⚠️ High recency, low frequency – at risk of churning."
  else "No description available."

/-- One expander of the cluster profile section (app.py lines 148-151):
the cluster label, its description, and the first 10 rows of
`df[df['Cluster'] == c][['CustomerID','Recency','Frequency','Monetary','Segment']]`. -/
structure ClusterProfile where
  cluster : Int
  description : String
  sample : List (String × Int × Int × Int × String)
deriving DecidableEq, Repr

/-- The per-cluster profile tables of app.py lines 148-151.  Note that
they are computed from the full loaded table `df`, not from `filtered_df`. -/
def cluster_profiles (df : List Record) : List ClusterProfile :=
  (uniqueClusters df).map (fun c =>
    { cluster := c
      description := cluster_descriptions c
      sample := ((df.filter (fun r => r.Cluster == c)).map
        (fun r => (r.CustomerID, r.Recency, r.Frequency, r.Monetary, r.Segment))).take 10 })

/-- All derived views recomputed by one dashboard run. -/
structure Views where
  filtered : List Record
  kpi : KPIs
  clusterCounts : List (Int × Nat)
  segMon : List (String × Option ℚ)
  segDist : List (String × Nat)
  composition : List CompRow
  topCustomers : List Record
  clusterProfiles : List ClusterProfile
  rfmMatrix : List (Int × Option ℚ × Option ℚ × Option ℚ)
deriving DecidableEq, Repr

/-- One full run of the dashboard script on the loaded table `df` with the
segment and cluster multiselect selections: all derived views.  Every view is
computed from `filtered_df` except the cluster profiles, which app.py computes
from `df` itself. -/
def dashboard (df : List Record) (segments : List String) (clusters : List Int) :
    Views :=
  let view := filtered_df df segments clusters
  { filtered := view
    kpi := kpis view
    clusterCounts := cluster_counts view
    segMon := seg_mon view
    segDist := seg_dist view
    composition := comp_df view
    topCustomers := top_customers view
    clusterProfiles := cluster_profiles df
    rfmMatrix := rfm_matrix view }

/-!  Preprocessing stage (`src/Notebooks/eda_preprocessing.py`). -/

/-- A calendar date as parsed from an input cell. -/
structure YMD where
  year : Nat
  month : Nat
  day : Nat
deriving DecidableEq, Repr

/-- Gregorian leap-year test. -/
def isLeap (y : Nat) : Bool :=
  (y % 4 == 0 && y % 100 != 0) || y % 400 == 0

/-- Number of days of month `m` of year `y`. -/
def daysInMonth (y m : Nat) : Nat :=
  if m = 2 then (if isLeap y then 29 else 28)
  else if m = 4 ∨ m = 6 ∨ m = 9 ∨ m = 11 then 30 else 31

/-- Numeric value of a decimal digit character. -/
def digitVal (c : Char) : Nat := c.toNat - 48

/-- Parse of one `YYYY-MM-DD` date cell, the date format of the dataset; any
other cell is malformed.  This models the date grammar accepted by
`pd.to_datetime` on this data; `none` is the `NaT` sentinel produced by
`errors='coerce'`. -/
def parseDate (s : String) : Option YMD :=
  match s.data with
  | [y1, y2, y3, y4, '-', m1, m2, '-', d1, d2] =>
    if (y1.isDigit && y2.isDigit && y3.isDigit && y4.isDigit &&
        m1.isDigit && m2.isDigit && d1.isDigit && d2.isDigit) then
      let y := ((digitVal y1 * 10 + digitVal y2) * 10 + digitVal y3) * 10 + digitVal y4
      let m := digitVal m1 * 10 + digitVal m2
      let d := digitVal d1 * 10 + digitVal d2
      if 1 ≤ m ∧ m ≤ 12 ∧ 1 ≤ d ∧ d ≤ daysInMonth y m then some ⟨y, m, d⟩ else none
    else none
  | _ => none

/-- Day number of a date (days since 1970-01-01, Gregorian calendar, the
standard days-from-civil computation).  Models the day component of pandas
`Timestamp` subtraction. -/
def daysFromCivil (x : YMD) : Int :=
  let y : Int := if x.month ≤ 2 then (x.year : Int) - 1 else (x.year : Int)
  let era : Int := Int.fdiv y 400
  let yoe : Int := y - era * 400
  let mp : Int := ((x.month : Int) + 9) % 12
  let doy : Int := Int.fdiv (153 * mp + 2) 5 + (x.day : Int) - 1
  let doe : Int := yoe * 365 + Int.fdiv yoe 4 - Int.fdiv yoe 100 + doy
  era * 146097 + doe - 719468

/-- A raw transaction row of the preprocessing input
(`data/bank_data_C.csv`), date cells still unparsed text. -/
structure RawRow where
  TransactionID : String
  CustomerDOB : String
  TransactionDate : String
  CustLocation : String
  TransactionAmount : ℚ
deriving DecidableEq, Repr

/-- A row after the two `pd.to_datetime(..., errors='coerce')` conversions
(eda_preprocessing.py lines 13-14): malformed date cells are now the null
sentinel `none`. -/
structure ConvRow where
  TransactionID : String
  CustomerDOB : Option YMD
  TransactionDate : Option YMD
  CustLocation : String
  TransactionAmount : ℚ
deriving DecidableEq, Repr

/-- The date-conversion step on one row. -/
def convertRow (r : RawRow) : ConvRow where
  TransactionID := r.TransactionID
  CustomerDOB := parseDate r.CustomerDOB
  TransactionDate := parseDate r.TransactionDate
  CustLocation := r.CustLocation
  TransactionAmount := r.TransactionAmount

/-- The date-conversion step on the whole table: a total function, so no
malformed cell can abort the batch. -/
def convertDates (rows : List RawRow) : List ConvRow := rows.map convertRow

/-- A row with the derived `Age` column
(`(today - data['CustomerDOB']).dt.days // 365`, line 18); `NaN` (from a
null date of birth) is `none`. -/
structure AgedRow extends ConvRow where
  Age : Option Int
deriving DecidableEq, Repr

/-- `Age` of one row: floor division of the day difference by 365, `NaN` for a
null date of birth. -/
def ageOf (today : Int) (dob : Option YMD) : Option Int :=
  dob.map (fun d => Int.fdiv (today - daysFromCivil d) 365)

/-- Date conversion plus the `Age` column for one row. -/
def agedRow (today : Int) (r : RawRow) : AgedRow :=
  { convertRow r with Age := ageOf today (parseDate r.CustomerDOB) }

/-- The pandas boolean mask `(data['Age'] >= 18) & (data['Age'] <= 100)`
(line 19): each comparison is `False` on `NaN`, so rows with a null age are
dropped. -/
def ageMask (a : AgedRow) : Bool :=
  (match a.Age with | some x => decide (18 ≤ x) | none => false) &&
  (match a.Age with | some x => decide (x ≤ 100) | none => false)

/-- A fully preprocessed row: the surviving columns plus the `Month` bucket
key string. -/
structure CleanRow extends AgedRow where
  Month : String
deriving DecidableEq, Repr

/-- Fixed-width decimal rendering: the `k` low decimal digits of `n`, most
significant first. -/
def padDigits : Nat → Nat → List Char
  | 0, _ => []
  | k + 1, n => Nat.digitChar (n / 10 ^ k % 10) :: padDigits k n

/-- `data['TransactionDate'].dt.to_period('M').astype(str)` (line 22) on one
row: the `YYYY-MM` month key of the transaction date, or the string `"NaT"`
when the date is null (pandas renders a null period that way). -/
def monthStr (t : Option YMD) : String :=
  match t with
  | none => "NaT"
  | some x => String.mk (padDigits 4 x.year ++ '-' :: padDigits 2 x.month)

/-- Adds the `Month` column to a surviving row. -/
def addMonthRow (a : AgedRow) : CleanRow :=
  { a with Month := monthStr a.TransactionDate }

/-- The whole preprocessing transform of eda_preprocessing.py lines 13-22:
date conversion, `Age` derivation, the age filter, and the `Month` column.
`today` is the day number of the fixed reference date
(`pd.to_datetime("today")`). -/
def preprocess (today : Int) (rows : List RawRow) : List CleanRow :=
  ((rows.map (agedRow today)).filter ageMask).map addMonthRow

/-- Syntactic `YYYY-MM` shape check for a month bucket key: seven characters,
four digits, a dash, two digits. -/
def isMonthKeyFormat (s : String) : Bool :=
  s.data.length == 7 && (s.data.take 4).all Char.isDigit &&
    s.data[4]? == some '-' && (s.data.drop 5).all Char.isDigit

/-!  Demonstration data (the example scenario of the spec, section 8). -/

/-- The two-customer example table of the spec. -/
def demoTable : List Record :=
  [{ CustomerID := "C1", Recency := 5, Frequency := 10, Monetary := 1000,
     Cluster := 0, Segment := "Best" },
   { CustomerID := "C2", Recency := 50, Frequency := 1, Monetary := 50,
     Cluster := 2, Segment := "Churned" }]

/-!  Claim theorems. -/

/-- Claim C1: for every loaded customer table and every selection of a
segment-set `S` and a cluster-set `C`, the filtered view equals exactly the
subset of records whose `Segment` is in `S` AND whose `Cluster` is in `C`
(logical AND across the two dimensions), and selecting all distinct `Segment`
and `Cluster` values yields the full table. -/
theorem filtered_df_and_semantics (df : List Record) (S : List String) (C : List Int) :
    filtered_df df S C = df.filter (fun r => decide (r.Segment ∈ S ∧ r.Cluster ∈ C)) ∧
    filtered_df df (uniqueSegments df) (uniqueClusters df) = df := by
  constructor
  · unfold filtered_df
    apply List.filter_congr
    intro r _
    simp
  · unfold filtered_df
    rw [List.filter_eq_self]
    intro r hr
    simp only [Bool.and_eq_true, List.elem_iff, uniqueSegments, uniqueClusters,
      List.mem_insertionSort, List.mem_dedup, List.mem_map]
    exact ⟨⟨r, hr, rfl⟩, ⟨r, hr, rfl⟩⟩

/-- Claim C2: when the selected segment set (or cluster set) is empty, the
filtered view has zero rows, the KPI count is 0, every KPI mean is the
undefined/not-a-number value `none`, and every other derived aggregate
degrades to an empty result. -/
theorem empty_selection_degrades (df : List Record) (S : List String) (C : List Int)
    (h : S = [] ∨ C = []) :
    (dashboard df S C).filtered = [] ∧
    (dashboard df S C).kpi.totalCustomers = 0 ∧
    (dashboard df S C).kpi.avgRecency = none ∧
    (dashboard df S C).kpi.avgFrequency = none ∧
    (dashboard df S C).kpi.avgMonetary = none ∧
    (dashboard df S C).clusterCounts = [] ∧
    (dashboard df S C).segMon = [] ∧
    (dashboard df S C).segDist = [] ∧
    (dashboard df S C).composition = [] ∧
    (dashboard df S C).topCustomers = [] ∧
    (dashboard df S C).rfmMatrix = [] := by
  have hv : filtered_df df S C = [] := by
    rcases h with h | h <;> subst h <;> simp [filtered_df]
  simp [dashboard, hv, kpis, seriesMean, comp_df, uniqueSegments, uniqueClusters,
    cluster_counts, seg_mon, seg_dist, top_customers, sort_values_Monetary, rfm_matrix]

/-- Witness for C2: the empty segment selection on the demonstration table. -/
theorem empty_selection_degrades_witness :
    (dashboard demoTable [] [0, 2]).filtered = [] ∧
    (dashboard demoTable [] [0, 2]).kpi.totalCustomers = 0 ∧
    (dashboard demoTable [] [0, 2]).kpi.avgRecency = none ∧
    (dashboard demoTable [] [0, 2]).kpi.avgFrequency = none ∧
    (dashboard demoTable [] [0, 2]).kpi.avgMonetary = none ∧
    (dashboard demoTable [] [0, 2]).clusterCounts = [] ∧
    (dashboard demoTable [] [0, 2]).segMon = [] ∧
    (dashboard demoTable [] [0, 2]).segDist = [] ∧
    (dashboard demoTable [] [0, 2]).composition = [] ∧
    (dashboard demoTable [] [0, 2]).topCustomers = [] ∧
    (dashboard demoTable [] [0, 2]).rfmMatrix = [] :=
  empty_selection_degrades demoTable [] [0, 2] (Or.inl rfl)

/-- Claim C10: the per-cluster profile expander tables are computed from the
full loaded table and do not depend on the segment/cluster filter selections:
two dashboard runs over the same table with different selections produce
identical cluster profiles. -/
theorem cluster_profiles_selection_independent (df : List Record)
    (S₁ S₂ : List String) (C₁ C₂ : List Int) :
    (dashboard df S₁ C₁).clusterProfiles = (dashboard df S₂ C₂).clusterProfiles ∧
    (dashboard df S₁ C₁).clusterProfiles = cluster_profiles df :=
  ⟨rfl, rfl⟩

/-!  Rounding error bounds. -/

/-- `rint` rounds to a distance of at most one half. -/
theorem abs_rint_sub_le (q : ℚ) : |(rint q : ℚ) - q| ≤ 1 / 2 := by
  unfold rint
  split
  · rename_i h
    unfold Int.fract at h
    have hq : q = (⌊q⌋ : ℚ) + 1 / 2 := by linarith
    obtain ⟨m, hm⟩ | ⟨m, hm⟩ := Int.even_or_odd ⌊q⌋
    · have h2 : round (q / 2) = m := by
        rw [round_eq, hq, hm]
        rw [show ((m + m : ℤ) : ℚ) + 1 / 2 = ((m : ℚ) + 3 / 4 - 1 / 2) * 2 by push_cast; ring]
        rw [mul_div_cancel_right₀ _ (two_ne_zero), sub_add_cancel, Int.floor_int_add]
        norm_num [Int.floor_eq_zero_iff]
    
      rw [h2, hq, hm]
      rw [show ((2 * m : ℤ) : ℚ) - (((m + m : ℤ) : ℚ) + 1 / 2) = -(1 / 2) by push_cast; ring]
      rw [abs_neg, abs_of_nonneg (by norm_num : (0 : ℚ) ≤ 1 / 2)]
    · have h2 : round (q / 2) = m + 1 := by
        rw [round_eq, hq, hm]
        rw [show ((2 * m + 1 : ℤ) : ℚ) + 1 / 2 = ((m : ℚ) + 5 / 4 - 1 / 2) * 2 by push_cast; ring]
        rw [mul_div_cancel_right₀ _ (two_ne_zero), sub_add_cancel, Int.floor_int_add]
        norm_num [Int.floor_eq_iff]
      rw [h2, hq, hm]
      rw [show ((2 * (m + 1) : ℤ) : ℚ) - (((2 * m + 1 : ℤ) : ℚ) + 1 / 2) = 1 / 2 by push_cast; ring]
      rw [abs_of_nonneg (by norm_num : (0 : ℚ) ≤ 1 / 2)]
  · rw [abs_sub_comm]
    exact abs_sub_round q

/-- `round1` rounds to a distance of at most one twentieth. -/
theorem abs_round1_sub_le (q : ℚ) : |round1 q - q| ≤ 1 / 20 := by
  unfold round1
  have h := abs_rint_sub_le (10 * q)
  rw [show (rint (10 * q) : ℚ) / 10 - q = ((rint (10 * q) : ℚ) - 10 * q) / 10 by ring,
    abs_div]
  rw [show |(10 : ℚ)| = 10 by norm_num]
  linarith

/-- Summed rounding error is at most one twentieth per entry. -/
theorem abs_sum_round1_sub_le (xs : List ℚ) :
    |(xs.map round1).sum - xs.sum| ≤ xs.length / 20 := by
  induction xs with
  | nil => simp
  | cons x xs ih =>
    simp only [List.map_cons, List.sum_cons, List.length_cons]
    have h1 := abs_round1_sub_le x
    have tri : |round1 x + (List.map round1 xs).sum - (x + xs.sum)|
        ≤ |round1 x - x| + |(List.map round1 xs).sum - xs.sum| := by
      rw [show round1 x + (List.map round1 xs).sum - (x + xs.sum)
          = (round1 x - x) + ((List.map round1 xs).sum - xs.sum) by ring]
      exact abs_add _ _
    have : ((xs.length + 1 : ℕ) : ℚ) / 20 = 1 / 20 + (xs.length : ℚ) / 20 := by
      push_cast; ring
    rw [this]
    calc |round1 x + (List.map round1 xs).sum - (x + xs.sum)|
        ≤ |round1 x - x| + |(List.map round1 xs).sum - xs.sum| := tri
      _ ≤ 1 / 20 + (xs.length : ℚ) / 20 := add_le_add h1 ih

/-!  Partition of a table sum over its distinct group keys. -/

/-- Summing an indicator over a duplicate-free key list that contains the key
picks out the single value. -/
theorem sum_map_ite_key {β M : Type} [DecidableEq β] [AddCommMonoid M]
    (ks : List β) (b : β) (v : M) (hnd : ks.Nodup) (hb : b ∈ ks) :
    (ks.map (fun k => if b = k then v else 0)).sum = v := by
  induction ks with
  | nil => cases hb
  | cons k ks ih =>
    rcases List.mem_cons.mp hb with rfl | hb'
    · have hz : (ks.map (fun k => if b = k then v else 0)).sum = 0 := by
        apply List.sum_eq_zero
        intro y hy
        obtain ⟨k', hk', rfl⟩ := List.mem_map.mp hy
        exact if_neg (by rintro rfl; exact (List.nodup_cons.mp hnd).1 hk')
      simp [hz]
    · have hne : b ≠ k := by rintro rfl; exact (List.nodup_cons.mp hnd).1 hb'
      simp only [List.map_cons, List.sum_cons, if_neg hne, zero_add]
      exact ih (List.nodup_cons.mp hnd).2 hb'

/-- Grouping a table by a key and summing the per-group sums over any
duplicate-free covering key list gives back the total sum. -/
theorem sum_map_filter_key {α β M : Type} [BEq β] [LawfulBEq β] [DecidableEq β] [AddCommMonoid M]
    (key : α → β) (f : α → M) (l : List α) (ks : List β)
    (hnd : ks.Nodup) (hcov : ∀ x ∈ l, key x ∈ ks) :
    (ks.map (fun k => ((l.filter (fun x => key x == k)).map f).sum)).sum
      = (l.map f).sum := by
  induction l with
  | nil => simp
  | cons x l ih =>
    have hcov' : ∀ y ∈ l, key y ∈ ks := fun y hy => hcov y (List.mem_cons_of_mem _ hy)
    have hx : key x ∈ ks := hcov x (List.mem_cons_self _ _)
    have hsplit : ∀ k : β, (((x :: l).filter (fun a => key a == k)).map f).sum
        = (if key x = k then f x else 0) + ((l.filter (fun a => key a == k)).map f).sum := by
      intro k
      by_cases h : key x = k
      · simp [List.filter_cons, h]
      · simp [List.filter_cons, h]
    calc (ks.map (fun k => (((x :: l).filter (fun a => key a == k)).map f).sum)).sum
        = (ks.map (fun k => (if key x = k then f x else 0)
            + ((l.filter (fun a => key a == k)).map f).sum)).sum := by
          apply congrArg
          exact List.map_congr_left (fun k _ => hsplit k)
      _ = (ks.map (fun k => if key x = k then f x else 0)).sum
            + (ks.map (fun k => ((l.filter (fun a => key a == k)).map f).sum)).sum := by
          rw [← List.sum_map_add]
      _ = f x + (l.map f).sum := by
          rw [sum_map_ite_key ks (key x) (f x) hnd hx, ih hcov']
      _ = ((x :: l).map f).sum := by simp

/-- The sorted distinct segment list has no duplicates. -/
theorem uniqueSegments_nodup (df : List Record) : (uniqueSegments df).Nodup :=
  ((List.perm_insertionSort _ _).nodup_iff).mpr (List.nodup_dedup _)

/-- Membership in the sorted distinct segment list is membership in the
segment column. -/
theorem mem_uniqueSegments {df : List Record} {s : String} :
    s ∈ uniqueSegments df ↔ s ∈ df.map Record.Segment := by
  simp [uniqueSegments, List.mem_insertionSort, List.mem_dedup]

/-- Every row's segment occurs in the sorted distinct segment list. -/
theorem segment_cover (view : List Record) :
    ∀ r ∈ view, r.Segment ∈ uniqueSegments view := fun r hr =>
  mem_uniqueSegments.mpr (List.mem_map_of_mem _ hr)

/-- Summing ones over a list yields its length. -/
theorem sum_map_one {α : Type} (l : List α) :
    (l.map (fun _ => (1 : ℚ))).sum = l.length := by
  induction l with
  | nil => simp
  | cons x l ih => simp [ih]; ring

/-- A list sum of integers casts to the sum of the casts. -/
theorem cast_sum_monetary (l : List Record) :
    (((l.map Record.Monetary).sum : ℤ) : ℚ) = (l.map (fun r => ((r.Monetary : ℤ) : ℚ))).sum := by
  have h := map_list_sum (Int.castAddHom ℚ) (l.map Record.Monetary)
  simp only [List.map_map, Function.comp_def, Int.coe_castAddHom] at h
  exact h

/-- The `comp_df['Customers'].sum()` total equals the number of rows of the
filtered view: the group sizes partition the view. -/
theorem totC_eq (view : List Record) :
    ((uniqueSegments view).map
      (fun s => (((view.filter (fun r => r.Segment == s)).length : ℕ) : ℚ))).sum
      = (view.length : ℚ) := by
  have h := sum_map_filter_key Record.Segment (fun _ => (1 : ℚ)) view
    (uniqueSegments view) (uniqueSegments_nodup view) (segment_cover view)
  rw [sum_map_one view] at h
  rw [← h]
  apply congrArg List.sum
  exact List.map_congr_left (fun s _ => (sum_map_one _).symm)

/-- The `comp_df['Total Monetary'].sum()` total equals the `Monetary` sum of
the filtered view: the group sums partition the view. -/
theorem totM_eq (view : List Record) :
    ((uniqueSegments view).map
      (fun s => ((((view.filter (fun r => r.Segment == s)).map Record.Monetary).sum : ℤ) : ℚ))).sum
      = (((view.map Record.Monetary).sum : ℤ) : ℚ) := by
  have h := sum_map_filter_key Record.Segment (fun r => ((r.Monetary : ℤ) : ℚ)) view
    (uniqueSegments view) (uniqueSegments_nodup view) (segment_cover view)
  rw [cast_sum_monetary]
  rw [← h]
  apply congrArg List.sum
  exact List.map_congr_left (fun s _ => cast_sum_monetary _)

/-- Closed form of `comp_df`: the code's totals, taken over the group table,
coincide with totals over the filtered view itself. -/
theorem comp_df_eq (view : List Record) :
    comp_df view = (uniqueSegments view).map (fun s =>
      { Segment := s
        Customers := (view.filter (fun r => r.Segment == s)).length
        TotalMonetary := ((view.filter (fun r => r.Segment == s)).map Record.Monetary).sum
        pctCustomers := round1
          ((((view.filter (fun r => r.Segment == s)).length : ℕ) : ℚ)
            / (view.length : ℚ) * 100)
        pctValue := round1
          (((((view.filter (fun r => r.Segment == s)).map Record.Monetary).sum : ℤ) : ℚ)
            / ((((view.map Record.Monetary).sum : ℤ) : ℚ)) * 100) }) := by
  have h1 := totC_eq view
  have h2 := totM_eq view
  simp only [comp_df, List.map_map, Function.comp_def]
  rw [h1, h2]

/-- Claim C4: for every filtered view, the per-segment composition table has
one row per distinct `Segment` present in the view, carrying the customer
count and the sum of `Monetary` for that segment, plus
percentage-of-total-count and percentage-of-total-monetary columns rounded to
one decimal place, where both totals are taken over the filtered view and not
over the full dataset. -/
theorem comp_df_spec (view : List Record) :
    ((comp_df view).map CompRow.Segment).Nodup ∧
    (∀ s : String, (∃ row ∈ comp_df view, row.Segment = s) ↔ s ∈ view.map Record.Segment) ∧
    ∀ row ∈ comp_df view,
      row.Customers = view.countP (fun r => r.Segment == row.Segment) ∧
      row.TotalMonetary = ((view.filter (fun r => r.Segment == row.Segment)).map Record.Monetary).sum ∧
      row.pctCustomers = round1 ((row.Customers : ℚ) / (view.length : ℚ) * 100) ∧
      row.pctValue = round1 ((row.TotalMonetary : ℚ)
        / (((view.map Record.Monetary).sum : ℤ) : ℚ) * 100) := by
  have hmap : (comp_df view).map CompRow.Segment = uniqueSegments view := by
    rw [comp_df_eq, List.map_map]
    exact (List.map_congr_left (fun s _ => rfl)).trans (List.map_id _)
  refine ⟨?_, ?_, ?_⟩
  · rw [hmap]; exact uniqueSegments_nodup view
  · intro s
    constructor
    · rintro ⟨row, hrow, rfl⟩
      have hm : row.Segment ∈ (comp_df view).map CompRow.Segment :=
        List.mem_map_of_mem _ hrow
      rw [hmap] at hm
      exact mem_uniqueSegments.mp hm
    · intro hs
      have hs' : s ∈ (comp_df view).map CompRow.Segment :=
        hmap ▸ mem_uniqueSegments.mpr hs
      obtain ⟨row, hrow, hseg⟩ := List.mem_map.mp hs'
      exact ⟨row, hrow, hseg⟩
  · intro row hrow
    rw [comp_df_eq] at hrow
    obtain ⟨s, _, rfl⟩ := List.mem_map.mp hrow
    refine ⟨(List.countP_eq_length_filter _ _).symm, rfl, rfl, rfl⟩

/-- The `"Best"` row of the composition table of the demonstration table. -/
def demoBestRow : CompRow :=
  { Segment := "Best", Customers := 1, TotalMonetary := 1000,
    pctCustomers := 50, pctValue := 476/5 }

/-- String-order fact used to evaluate the sorted segment list of the
demonstration table. -/
theorem demo_seg_le : ("Best" : String) ≤ "Churned" := by
  rw [String.le_iff_toList_le]; decide

/-- The sorted distinct segments of the demonstration table. -/
theorem uniqueSegments_demo : uniqueSegments demoTable = ["Best", "Churned"] := by
  have h1 : (demoTable.map Record.Segment).dedup = ["Best", "Churned"] := by decide
  rw [uniqueSegments, h1]
  simp [List.insertionSort, List.orderedInsert, demo_seg_le]
  decide

/-- The composition table of the demonstration table, fully evaluated. -/
theorem comp_df_demo : comp_df demoTable =
    [demoBestRow,
     { Segment := "Churned", Customers := 1, TotalMonetary := 50,
       pctCustomers := 50, pctValue := 24/5 }] := by
  rw [comp_df_eq, uniqueSegments_demo]
  have hf1 : demoTable.filter (fun r => r.Segment == "Best")
      = [{ CustomerID := "C1", Recency := 5, Frequency := 10, Monetary := 1000,
           Cluster := 0, Segment := "Best" }] := by decide
  have hf2 : demoTable.filter (fun r => r.Segment == "Churned")
      = [{ CustomerID := "C2", Recency := 50, Frequency := 1, Monetary := 50,
           Cluster := 2, Segment := "Churned" }] := by decide
  simp only [List.map_cons, List.map_nil, hf1, hf2]
  norm_num [demoTable, demoBestRow, round1, rint, Int.fract, round_eq]

/-- Witness for C4: the `"Best"` row of the demonstration table's composition
table carries count 1, monetary sum 1000, 50.0 percent of customers and 95.2
percent of value, with totals over the two-row view. -/
theorem comp_df_spec_witness :
    demoBestRow ∈ comp_df demoTable ∧
    (demoBestRow.Customers = demoTable.countP (fun r => r.Segment == demoBestRow.Segment) ∧
     demoBestRow.TotalMonetary
       = ((demoTable.filter (fun r => r.Segment == demoBestRow.Segment)).map Record.Monetary).sum ∧
     demoBestRow.pctCustomers = round1 ((demoBestRow.Customers : ℚ) / (demoTable.length : ℚ) * 100) ∧
     demoBestRow.pctValue = round1 ((demoBestRow.TotalMonetary : ℚ)
       / (((demoTable.map Record.Monetary).sum : ℤ) : ℚ) * 100)) :=
  ⟨by rw [comp_df_demo]; exact List.mem_cons_self _ _,
   (comp_df_spec demoTable).2.2 demoBestRow
     (by rw [comp_df_demo]; exact List.mem_cons_self _ _)⟩

/-- Claim C6 (amended): for every non-empty filtered view whose total
`Monetary` is nonzero, the sum of the `% of Customers` column equals 100
within rounding tolerance (at most one half of the last rounded digit, 1/20,
per table row), and likewise for the `% of Value` column. -/
theorem comp_df_pct_sums (view : List Record) (hne : view ≠ [])
    (hM : (view.map Record.Monetary).sum ≠ 0) :
    |((comp_df view).map CompRow.pctCustomers).sum - 100|
      ≤ ((comp_df view).length : ℚ) / 20 ∧
    |((comp_df view).map CompRow.pctValue).sum - 100|
      ≤ ((comp_df view).length : ℚ) / 20 := by
  have hL : ((view.length : ℕ) : ℚ) ≠ 0 := by
    have := List.length_pos.mpr hne
    exact_mod_cast Nat.pos_iff_ne_zero.mp this
  have hMq : (((view.map Record.Monetary).sum : ℤ) : ℚ) ≠ 0 := Int.cast_ne_zero.mpr hM
  constructor
  · have hcol : (comp_df view).map CompRow.pctCustomers
        = ((uniqueSegments view).map
            (fun s => (((view.filter (fun r => r.Segment == s)).length : ℕ) : ℚ)
              / (view.length : ℚ) * 100)).map round1 := by
      rw [comp_df_eq, List.map_map, List.map_map]
      exact List.map_congr_left (fun s _ => rfl)
    have hsum : ((uniqueSegments view).map
        (fun s => (((view.filter (fun r => r.Segment == s)).length : ℕ) : ℚ)
          / (view.length : ℚ) * 100)).sum = 100 := by
      rw [List.map_congr_left (fun s _ => by
        show (((view.filter (fun r => r.Segment == s)).length : ℕ) : ℚ)
            / (view.length : ℚ) * 100
          = (((view.filter (fun r => r.Segment == s)).length : ℕ) : ℚ)
            * (100 / (view.length : ℚ))
        ring)]
      rw [List.sum_map_mul_right, totC_eq]
      field_simp
    have hb := abs_sum_round1_sub_le ((uniqueSegments view).map
        (fun s => (((view.filter (fun r => r.Segment == s)).length : ℕ) : ℚ)
          / (view.length : ℚ) * 100))
    rw [hsum] at hb
    have hlen : (comp_df view).length
        = ((uniqueSegments view).map
            (fun s => (((view.filter (fun r => r.Segment == s)).length : ℕ) : ℚ)
              / (view.length : ℚ) * 100)).length := by
      rw [comp_df_eq]; simp
    rw [hcol, hlen]
    simpa using hb
  · have hcol : (comp_df view).map CompRow.pctValue
        = ((uniqueSegments view).map
            (fun s => ((((view.filter (fun r => r.Segment == s)).map Record.Monetary).sum : ℤ) : ℚ)
              / ((((view.map Record.Monetary).sum : ℤ) : ℚ)) * 100)).map round1 := by
      rw [comp_df_eq, List.map_map, List.map_map]
      exact List.map_congr_left (fun s _ => rfl)
    have hsum : ((uniqueSegments view).map
        (fun s => ((((view.filter (fun r => r.Segment == s)).map Record.Monetary).sum : ℤ) : ℚ)
          / ((((view.map Record.Monetary).sum : ℤ) : ℚ)) * 100)).sum = 100 := by
      rw [List.map_congr_left (fun s _ => by
        show ((((view.filter (fun r => r.Segment == s)).map Record.Monetary).sum : ℤ) : ℚ)
            / ((((view.map Record.Monetary).sum : ℤ) : ℚ)) * 100
          = ((((view.filter (fun r => r.Segment == s)).map Record.Monetary).sum : ℤ) : ℚ)
            * (100 / ((((view.map Record.Monetary).sum : ℤ) : ℚ)))
        ring)]
      rw [List.sum_map_mul_right, totM_eq]
      have hgen : ∀ x : ℚ, x ≠ 0 → x * (100 / x) = 100 := fun x hx => by
        field_simp
      exact hgen _ hMq
    have hb := abs_sum_round1_sub_le ((uniqueSegments view).map
        (fun s => ((((view.filter (fun r => r.Segment == s)).map Record.Monetary).sum : ℤ) : ℚ)
          / ((((view.map Record.Monetary).sum : ℤ) : ℚ)) * 100))
    rw [hsum] at hb
    have hlen : (comp_df view).length
        = ((uniqueSegments view).map
            (fun s => ((((view.filter (fun r => r.Segment == s)).map Record.Monetary).sum : ℤ) : ℚ)
              / ((((view.map Record.Monetary).sum : ℤ) : ℚ)) * 100)).length := by
      rw [comp_df_eq]; simp
    rw [hcol, hlen]
    simpa using hb

/-- Witness for C6 (amended): the percentage sums of the demonstration
table's composition table are within tolerance of 100. -/
theorem comp_df_pct_sums_witness :
    |((comp_df demoTable).map CompRow.pctCustomers).sum - 100|
      ≤ ((comp_df demoTable).length : ℚ) / 20 ∧
    |((comp_df demoTable).map CompRow.pctValue).sum - 100|
      ≤ ((comp_df demoTable).length : ℚ) / 20 :=
  comp_df_pct_sums demoTable (by decide) (by decide)

/-- A one-customer table whose single `Monetary` value is zero: its `% of
Value` column is degenerate. -/
def zeroMonetaryTable : List Record :=
  [{ CustomerID := "Z", Recency := 1, Frequency := 1, Monetary := 0,
     Cluster := 0, Segment := "Best" }]

/-- Counterexample to C6 as stated: over this non-empty (one-row, hence
one-group) view the total `Monetary` is zero, the code's `% of Value` entry is
the degenerate `0/0` percentage, and the column sum is 0, not 100 within
rounding tolerance. -/
theorem comp_df_pct_value_counterexample :
    zeroMonetaryTable ≠ [] ∧
    ¬ |((comp_df zeroMonetaryTable).map CompRow.pctValue).sum - 100|
        ≤ ((comp_df zeroMonetaryTable).length : ℚ) / 20 := by
  constructor
  · intro h; cases h
  · have hu : uniqueSegments zeroMonetaryTable = ["Best"] := by decide
    have hf : zeroMonetaryTable.filter (fun r => r.Segment == "Best")
        = zeroMonetaryTable := by decide
    rw [comp_df_eq, hu]
    simp only [List.map_cons, List.map_nil, hf]
    norm_num [zeroMonetaryTable, round1, rint, Int.fract, round_eq]

/-!  Top customers. -/

instance : IsTotal Record descMonetary :=
  ⟨fun a b => le_total b.Monetary a.Monetary⟩

instance : IsTrans Record descMonetary :=
  ⟨fun _ _ _ h1 h2 => le_trans h2 h1⟩

/-- Claim C5 (amended): for every non-empty filtered view and every admissible
result of the descending-`Monetary` sort (the code's default quicksort
guarantees only a descending permutation of the view), the top-N table is the
first N of that result: it consists of the N records with the highest
`Monetary` values, sorted in descending order of `Monetary`, where N is the
fixed constant 10; the dashboard's own table arises from such an admissible
result.  The order among records with equal `Monetary` is not guaranteed to
be the original row order (see the counterexample). -/
theorem top_customers_spec (view : List Record) (hne : view ≠ []) :
    (∃ out : List Record, SortValuesSpec view out ∧ top_customers view = out.take 10) ∧
    ∀ out : List Record, SortValuesSpec view out →
      (out.take 10).length = min 10 view.length ∧
      List.Sorted descMonetary (out.take 10) ∧
      ∃ rest : List Record, (out.take 10 ++ rest).Perm view ∧
        ∀ t ∈ out.take 10, ∀ r ∈ rest, r.Monetary ≤ t.Monetary := by
  constructor
  · exact ⟨sort_values_Monetary view,
      ⟨List.perm_insertionSort descMonetary view,
       List.sorted_insertionSort descMonetary view⟩, rfl⟩
  · rintro out ⟨hperm, hsort⟩
    refine ⟨?_, ?_, ?_⟩
    · rw [List.length_take, hperm.length_eq]
    · exact hsort.sublist (List.take_sublist _ _)
    · refine ⟨out.drop 10, ?_, ?_⟩
      · rw [List.take_append_drop]
        exact hperm
      · have h := hsort
        rw [← List.take_append_drop 10 out] at h
        exact fun t ht r hr => (List.pairwise_append.mp h).2.2 t ht r hr

/-- Witness for C5 (amended): the top-customers properties at the
demonstration table, for the dashboard's own admissible sort result. -/
theorem top_customers_spec_witness :
    (∃ out : List Record, SortValuesSpec demoTable out ∧
      top_customers demoTable = out.take 10) ∧
    (((sort_values_Monetary demoTable).take 10).length = min 10 demoTable.length ∧
     List.Sorted descMonetary ((sort_values_Monetary demoTable).take 10) ∧
     ∃ rest : List Record,
       ((sort_values_Monetary demoTable).take 10 ++ rest).Perm demoTable ∧
       ∀ t ∈ (sort_values_Monetary demoTable).take 10, ∀ r ∈ rest,
         r.Monetary ≤ t.Monetary) :=
  ⟨(top_customers_spec demoTable (by decide)).1,
   (top_customers_spec demoTable (by decide)).2 (sort_values_Monetary demoTable)
     ⟨List.perm_insertionSort descMonetary demoTable,
      List.sorted_insertionSort descMonetary demoTable⟩⟩

/-- Two customers tied on `Monetary`, in table order A then B. -/
def tiedTable : List Record :=
  [{ CustomerID := "A", Recency := 1, Frequency := 1, Monetary := 5,
     Cluster := 0, Segment := "Best" },
   { CustomerID := "B", Recency := 2, Frequency := 2, Monetary := 5,
     Cluster := 0, Segment := "Best" }]

/-- The same two rows in swapped order. -/
def tiedSwapped : List Record :=
  [{ CustomerID := "B", Recency := 2, Frequency := 2, Monetary := 5,
     Cluster := 0, Segment := "Best" },
   { CustomerID := "A", Recency := 1, Frequency := 1, Monetary := 5,
     Cluster := 0, Segment := "Best" }]

/-- Counterexample to C5 as stated: the swapped order is an admissible result
of the descending sort (a descending permutation, which is all the code's
default unstable quicksort guarantees), yet in the resulting top-10 table the
records of equal `Monetary` are not in original row order.  So the claimed
tie-break by original row order is not a property of the program. -/
theorem top_customers_tie_counterexample :
    SortValuesSpec tiedTable tiedSwapped ∧
    (tiedSwapped.take 10).filter (fun r => r.Monetary == 5)
      ≠ tiedTable.filter (fun r => r.Monetary == 5) := by
  refine ⟨⟨?_, ?_⟩, ?_⟩
  · exact List.Perm.swap _ _ _
  · decide
  · decide

/-!  Age derivation and filtering. -/

/-- Floor division of an integer by 365 is the real floor of the exact
quotient. -/
theorem fdiv_365_eq_floor (a : ℤ) : Int.fdiv a 365 = ⌊(a : ℚ) / (365 : ℚ)⌋ := by
  rw [show ((365 : ℚ)) = ((365 : ℕ) : ℚ) by norm_num]
  rw [Rat.floor_intCast_div_natCast]
  rw [Int.fdiv_eq_ediv a (by norm_num : (0 : ℤ) ≤ 365)]
  norm_num

/-- Claim C3: for every input row with a parseable `CustomerDOB`, the derived
`Age` equals `floor((reference_date - birth_date).days / 365)`; the
preprocessing output retains exactly the rows whose `Age` is in `[18, 100]`
inclusive, and all other rows, including those with null (unparseable) birth
dates, are dropped. -/
theorem age_derivation_spec (today : Int) (rows : List RawRow) :
    (∀ r : RawRow, ∀ d : YMD, parseDate r.CustomerDOB = some d →
      (agedRow today r).Age = some ⌊((today - daysFromCivil d : ℤ) : ℚ) / (365 : ℚ)⌋) ∧
    (∀ a : AgedRow, ageMask a = true ↔ ∃ n : Int, a.Age = some n ∧ 18 ≤ n ∧ n ≤ 100) ∧
    preprocess today rows = ((rows.map (agedRow today)).filter ageMask).map addMonthRow := by
  refine ⟨?_, ?_, rfl⟩
  · intro r d hd
    show ageOf today (parseDate r.CustomerDOB) = _
    rw [hd]
    show some (Int.fdiv (today - daysFromCivil d) 365) = _
    rw [fdiv_365_eq_floor]
  · intro a
    unfold ageMask
    rcases ha : a.Age with _ | n <;> simp [ha]

/-- A raw row with a parseable date of birth, used as concrete input. -/
def goodRawRow : RawRow :=
  { TransactionID := "T1", CustomerDOB := "1990-01-01",
    TransactionDate := "2015-06-15", CustLocation := "Mumbai",
    TransactionAmount := 100 }

/-- Witness for C3: for reference day 20000 (in days since 1970-01-01) the
derived age of a customer born 1990-01-01 is the floor of the exact day
quotient, and the pandas age mask accepts exactly the in-range defined
ages. -/
theorem age_derivation_spec_witness :
    (agedRow 20000 goodRawRow).Age
      = some ⌊((20000 - daysFromCivil ⟨1990, 1, 1⟩ : ℤ) : ℚ) / (365 : ℚ)⌋ ∧
    (ageMask (agedRow 20000 goodRawRow) = true ↔
      ∃ n : Int, (agedRow 20000 goodRawRow).Age = some n ∧ 18 ≤ n ∧ n ≤ 100) :=
  ⟨(age_derivation_spec 20000 [goodRawRow]).1 goodRawRow ⟨1990, 1, 1⟩ (by decide),
   (age_derivation_spec 20000 [goodRawRow]).2.1 (agedRow 20000 goodRawRow)⟩

/-- Claim C8: a malformed (unparseable) `CustomerDOB` or `TransactionDate`
cell is coerced to the null-date sentinel; the batch conversion is a total
function processing every row, so a malformed cell affects only its own row
and never aborts the batch. -/
theorem date_coercion_spec (xs ys : List RawRow) (r : RawRow)
    (h1 : parseDate r.CustomerDOB = none) (h2 : parseDate r.TransactionDate = none) :
    convertDates (xs ++ r :: ys)
      = convertDates xs ++
        { TransactionID := r.TransactionID, CustomerDOB := none,
          TransactionDate := none, CustLocation := r.CustLocation,
          TransactionAmount := r.TransactionAmount } :: convertDates ys ∧
    (convertDates (xs ++ r :: ys)).length = xs.length + 1 + ys.length := by
  constructor
  · unfold convertDates
    rw [List.map_append, List.map_cons]
    simp [convertRow, h1, h2]
  · unfold convertDates
    rw [List.length_map, List.length_append, List.length_cons]
    omega

/-- A raw row whose two date cells are both malformed. -/
def badRawRow : RawRow :=
  { TransactionID := "T2", CustomerDOB := "banana",
    TransactionDate := "12/34/5678x", CustLocation := "Delhi",
    TransactionAmount := 5 }

/-- Witness for C8: the malformed row between two well-formed rows is coerced
to null dates in place, and all three rows survive the conversion. -/
theorem date_coercion_spec_witness :
    convertDates ([goodRawRow] ++ badRawRow :: [goodRawRow])
      = convertDates [goodRawRow] ++
        { TransactionID := badRawRow.TransactionID, CustomerDOB := none,
          TransactionDate := none, CustLocation := badRawRow.CustLocation,
          TransactionAmount := badRawRow.TransactionAmount } :: convertDates [goodRawRow] ∧
    (convertDates ([goodRawRow] ++ badRawRow :: [goodRawRow])).length
      = [goodRawRow].length + 1 + [goodRawRow].length :=
  date_coercion_spec [goodRawRow] [goodRawRow] badRawRow (by decide) (by decide)

/-!  Month bucket keys. -/

/-- A decimal digit value is below ten. -/
theorem digitVal_lt_ten {c : Char} (hc : c.isDigit = true) : digitVal c < 10 := by
  simp [Char.isDigit] at hc
  obtain ⟨h1, h2⟩ := hc
  have h1' : (48 : Nat) ≤ c.toNat := h1
  have h2' : c.toNat ≤ 57 := h2
  unfold digitVal
  omega

/-- Fixed-width renderings have the requested width. -/
theorem padDigits_length (k n : Nat) : (padDigits k n).length = k := by
  induction k generalizing n with
  | zero => rfl
  | succ k ih => simp [padDigits, ih]

/-- The characters emitted for digits below ten are decimal digits. -/
theorem digitChar_isDigit : ∀ d : Nat, d < 10 → (Nat.digitChar d).isDigit = true := by
  decide

/-- Every character of a fixed-width rendering is a decimal digit. -/
theorem padDigits_all_digit (k n : Nat) : ∀ c ∈ padDigits k n, c.isDigit = true := by
  induction k generalizing n with
  | zero => intro c hc; cases hc
  | succ k ih =>
    intro c hc
    rcases List.mem_cons.mp hc with rfl | hc'
    · exact digitChar_isDigit _ (Nat.mod_lt _ (by norm_num))
    · exact ih n c hc'

/-- Digit characters are ordered like their digits. -/
theorem digitChar_lt : ∀ a : Nat, a < 10 → ∀ b : Nat, b < 10 → a < b →
    Nat.digitChar a < Nat.digitChar b := by
  decide

/-- Fixed-width renderings are ordered lexicographically like the rendered
values modulo the width. -/
theorem padDigits_mod_lt_lex (k : Nat) : ∀ n n' : Nat, n % 10 ^ k < n' % 10 ^ k →
    List.Lex (· < ·) (padDigits k n) (padDigits k n') := by
  induction k with
  | zero => intro n n' h; rw [pow_zero] at h; omega
  | succ k ih =>
    intro n n' h
    have hr' : n' % 10 ^ k < 10 ^ k := Nat.mod_lt _ (Nat.pow_pos (by norm_num))
    have hdec := @Nat.mod_pow_succ n 10 k
    have hdec' := @Nat.mod_pow_succ n' 10 k
    rcases Nat.lt_trichotomy (n / 10 ^ k % 10) (n' / 10 ^ k % 10) with hd | hd | hd
    · exact List.Lex.rel (digitChar_lt _ (Nat.mod_lt _ (by norm_num)) _
        (Nat.mod_lt _ (by norm_num)) hd)
    · have hmod : n % 10 ^ k < n' % 10 ^ k := by
        rw [← hd] at hdec'
        omega
      rw [padDigits, padDigits, hd]
      exact List.Lex.cons (ih n n' hmod)
    · exfalso
      have hstep : n' / 10 ^ k % 10 + 1 ≤ n / 10 ^ k % 10 := hd
      have hPd : 10 ^ k * (n' / 10 ^ k % 10) + 10 ^ k ≤ 10 ^ k * (n / 10 ^ k % 10) := by
        calc 10 ^ k * (n' / 10 ^ k % 10) + 10 ^ k
            = 10 ^ k * (n' / 10 ^ k % 10 + 1) := by ring
          _ ≤ 10 ^ k * (n / 10 ^ k % 10) := Nat.mul_le_mul_left _ hstep
      omega

/-- Fixed-width renderings of values below the width bound are ordered
lexicographically like the values. -/
theorem padDigits_lt_lex (k n n' : Nat) (h : n < n') (h' : n' < 10 ^ k) :
    List.Lex (· < ·) (padDigits k n) (padDigits k n') := by
  apply padDigits_mod_lt_lex
  rw [Nat.mod_eq_of_lt (lt_trans h h'), Nat.mod_eq_of_lt h']
  exact h

/-- A lexicographic comparison of equal-length lists survives appending
arbitrary tails. -/
theorem lex_append_of_length_eq {α : Type} {r : α → α → Prop} :
    ∀ {l1 l2 : List α}, List.Lex r l1 l2 → l1.length = l2.length →
    ∀ t1 t2 : List α, List.Lex r (l1 ++ t1) (l2 ++ t2) := by
  intro l1 l2 h
  induction h with
  | nil => intro hlen; exact absurd hlen (by simp)
  | rel hab => intro _ t1 t2; exact List.Lex.rel hab
  | cons _ ih =>
    intro hlen t1 t2
    exact List.Lex.cons (ih (by simpa using hlen) t1 t2)

/-- A lexicographic comparison survives prepending a common prefix. -/
theorem lex_append_left {α : Type} {r : α → α → Prop} (l : List α) {s1 s2 : List α}
    (h : List.Lex r s1 s2) : List.Lex r (l ++ s1) (l ++ s2) := by
  induction l with
  | nil => exact h
  | cons a l ih => exact List.Lex.cons ih

/-- Month keys of dates with four-digit years and two-digit months are
ordered like the (year, month) pairs. -/
theorem monthStr_lt {x x' : YMD} (hy' : x'.year < 10000)
    (hm : x.month < 100) (hm' : x'.month < 100)
    (h : x.year < x'.year ∨ (x.year = x'.year ∧ x.month < x'.month)) :
    monthStr (some x) < monthStr (some x') := by
  rw [String.lt_iff_toList_lt]
  show List.Lex (· < ·) (padDigits 4 x.year ++ '-' :: padDigits 2 x.month)
    (padDigits 4 x'.year ++ '-' :: padDigits 2 x'.month)
  rcases h with h | ⟨hy_eq, hm_lt⟩
  · exact lex_append_of_length_eq (padDigits_lt_lex 4 _ _ h hy')
      (by rw [padDigits_length, padDigits_length]) _ _
  · rw [hy_eq]
    exact lex_append_left _ (List.Lex.cons (padDigits_lt_lex 2 _ _ hm_lt hm'))

/-- The month key of a non-null date has the `YYYY-MM` shape. -/
theorem isMonthKeyFormat_monthStr (x : YMD) :
    isMonthKeyFormat (monthStr (some x)) = true := by
  unfold isMonthKeyFormat monthStr
  have h4 : (padDigits 4 x.year).length = 4 := padDigits_length 4 x.year
  show ((padDigits 4 x.year ++ '-' :: padDigits 2 x.month).length == 7
      && ((padDigits 4 x.year ++ '-' :: padDigits 2 x.month).take 4).all Char.isDigit
      && (padDigits 4 x.year ++ '-' :: padDigits 2 x.month)[4]? == some '-'
      && ((padDigits 4 x.year ++ '-' :: padDigits 2 x.month).drop 5).all Char.isDigit) = true
  have htake : (padDigits 4 x.year ++ '-' :: padDigits 2 x.month).take 4
      = padDigits 4 x.year := by
    rw [List.take_append_of_le_length (by rw [h4])]
    rw [List.take_of_length_le (by rw [h4])]
  have hget : (padDigits 4 x.year ++ '-' :: padDigits 2 x.month)[4]? = some '-' := by
    rw [List.getElem?_append_right (by rw [h4])]
    rw [h4]
    rfl
  have hdrop : (padDigits 4 x.year ++ '-' :: padDigits 2 x.month).drop 5
      = padDigits 2 x.month := by
    rw [show padDigits 4 x.year ++ '-' :: padDigits 2 x.month
        = (padDigits 4 x.year ++ ['-']) ++ padDigits 2 x.month by simp]
    rw [List.drop_append_of_le_length (by simp [h4])]
    rw [List.drop_of_length_le (by simp [h4])]
    simp
  rw [htake, hget, hdrop]
  simp only [List.length_append, h4, List.length_cons, padDigits_length,
    Bool.and_eq_true, beq_iff_eq, List.all_eq_true]
  refine ⟨⟨⟨?_, ?_⟩, ?_⟩, ?_⟩ <;>
    first
      | trivial
      | exact fun c hc => padDigits_all_digit 4 x.year c hc
      | exact fun c hc => padDigits_all_digit 2 x.month c hc

/-- Dates accepted by the parser have four-digit years and calendar month
numbers. -/
theorem parseDate_bounds {s : String} {x : YMD} (h : parseDate s = some x) :
    x.year < 10000 ∧ 1 ≤ x.month ∧ x.month ≤ 12 := by
  unfold parseDate at h
  split at h
  · rename_i c1 c2 c3 c4 c5 c6 c7 c8 heq
    split at h
    · rename_i hdig
      dsimp only at h
      split at h
      · rename_i hrange
        injection h with h
        subst h
        simp only [Bool.and_eq_true] at hdig
        obtain ⟨⟨⟨⟨⟨⟨⟨h1, h2⟩, h3⟩, h4⟩, h5⟩, h6⟩, h7⟩, h8⟩ := hdig
        have b1 := digitVal_lt_ten h1
        have b2 := digitVal_lt_ten h2
        have b3 := digitVal_lt_ten h3
        have b4 := digitVal_lt_ten h4
        refine ⟨?_, hrange.1, hrange.2.1⟩
        show ((digitVal c1 * 10 + digitVal c2) * 10 + digitVal c3) * 10
          + digitVal c4 < 10000
        omega
      · exact absurd h (by simp)
    · exact absurd h (by simp)
  · exact absurd h (by simp)

/-- Every row of the preprocessing output arises from one input row that
passed the age mask. -/
theorem mem_preprocess {today : Int} {rows : List RawRow} {r : CleanRow}
    (hr : r ∈ preprocess today rows) :
    ∃ raw ∈ rows, r = addMonthRow (agedRow today raw) := by
  unfold preprocess at hr
  obtain ⟨a, ha, rfl⟩ := List.mem_map.mp hr
  obtain ⟨ha', _⟩ := List.mem_filter.mp ha
  obtain ⟨raw, hraw, rfl⟩ := List.mem_map.mp ha'
  exact ⟨raw, hraw, rfl⟩

/-- Claim C9 (amended): for every row retained by preprocessing whose
`TransactionDate` parsed to a date, the `Month` field is the `YYYY-MM` bucket
key of that date at calendar-month granularity (year and month only, the day
is discarded), and those keys are sortable: the string ordering of month keys
agrees with the chronological ordering of the (year, month) pairs.  Rows
whose `TransactionDate` cell was malformed are retained with the non-key
string `"NaT"` instead (see the counterexample). -/
theorem month_bucketing_spec (today : Int) (rows : List RawRow) :
    (∀ r ∈ preprocess today rows, ∀ x : YMD, r.TransactionDate = some x →
      isMonthKeyFormat r.Month = true ∧
      (∀ d' : Nat, monthStr (some ⟨x.year, x.month, d'⟩) = r.Month) ∧
      r.Month.data = padDigits 4 x.year ++ '-' :: padDigits 2 x.month) ∧
    (∀ r ∈ preprocess today rows, ∀ r' ∈ preprocess today rows,
      ∀ x x' : YMD, r.TransactionDate = some x → r'.TransactionDate = some x' →
      (x.year < x'.year ∨ (x.year = x'.year ∧ x.month < x'.month)) →
      r.Month < r'.Month) := by
  have hMonth : ∀ r ∈ preprocess today rows, ∀ x : YMD,
      r.TransactionDate = some x → r.Month = monthStr (some x) := by
    intro r hr x hx
    obtain ⟨raw, _, rfl⟩ := mem_preprocess hr
    show monthStr (parseDate raw.TransactionDate) = monthStr (some x)
    rw [show parseDate raw.TransactionDate = some x from hx]
  have hParse : ∀ r ∈ preprocess today rows, ∀ x : YMD,
      r.TransactionDate = some x → x.year < 10000 ∧ 1 ≤ x.month ∧ x.month ≤ 12 := by
    intro r hr x hx
    obtain ⟨raw, _, rfl⟩ := mem_preprocess hr
    exact parseDate_bounds (s := raw.TransactionDate) hx
  constructor
  · intro r hr x hx
    rw [hMonth r hr x hx]
    exact ⟨isMonthKeyFormat_monthStr x, fun d' => rfl, rfl⟩
  · intro r hr r' hr' x x' hx hx' hlt
    rw [hMonth r hr x hx, hMonth r' hr' x' hx']
    obtain ⟨hy', hm1', hm2'⟩ := hParse r' hr' x' hx'
    obtain ⟨_, _, hm2⟩ := hParse r hr x hx
    exact monthStr_lt hy' (by omega) (by omega) hlt

/-- Witness for C9 (amended): the retained row for transaction date
2015-06-15 carries month key `"2015-06"`, in `YYYY-MM` shape, independent of
the day. -/
theorem month_bucketing_spec_witness :
    isMonthKeyFormat (addMonthRow (agedRow 20000 goodRawRow)).Month = true ∧
    (∀ d' : Nat, monthStr (some ⟨2015, 6, d'⟩)
      = (addMonthRow (agedRow 20000 goodRawRow)).Month) ∧
    (addMonthRow (agedRow 20000 goodRawRow)).Month.data
      = padDigits 4 2015 ++ '-' :: padDigits 2 6 :=
  (month_bucketing_spec 20000 [goodRawRow]).1
    (addMonthRow (agedRow 20000 goodRawRow))
    (List.mem_cons_self _ _) ⟨2015, 6, 15⟩ rfl

/-- A raw row with a valid date of birth but a malformed transaction date:
it survives the age filter. -/
def natMonthRow : RawRow :=
  { TransactionID := "T3", CustomerDOB := "1990-01-01",
    TransactionDate := "banana", CustLocation := "Mumbai",
    TransactionAmount := 7 }

/-- Counterexample to C9 as stated: this row is retained by preprocessing
(its age is defined and in range), yet its `Month` field is the string
`"NaT"`, which is not a `YYYY-MM` bucket key. -/
theorem month_bucketing_counterexample :
    (preprocess 20000 [natMonthRow]).map CleanRow.Month = ["NaT"] ∧
    isMonthKeyFormat "NaT" = false := by
  constructor
  · rfl
  · rfl

/-!  CSV export and re-import (app.py line 169: `filtered_df.to_csv(index=False)`
for the download button, re-loaded as `pd.read_csv` would parse it with the
presentation schema). -/

/-- Little-endian digit characters of a natural number; the fuel argument
(first) makes the recursion structural, fuel `n` suffices for `n`. -/
def natCharsAux : Nat → Nat → List Char
  | 0, _ => []
  | _ + 1, 0 => []
  | f + 1, n + 1 => Nat.digitChar ((n + 1) % 10) :: natCharsAux f ((n + 1) / 10)

/-- Decimal rendering of a natural number, most significant digit first. -/
def natChars (n : Nat) : List Char :=
  if n = 0 then ['0'] else (natCharsAux n n).reverse

/-- Decimal rendering of an integer, with a leading minus sign when
negative. -/
def intChars (z : Int) : List Char :=
  if z < 0 then '-' :: natChars z.natAbs else natChars z.toNat

/-- Big-endian accumulation of digit characters into a natural number. -/
def charsToNatAux (acc : Nat) (l : List Char) : Nat :=
  l.foldl (fun a c => a * 10 + digitVal c) acc

/-- Parse of a decimal natural number cell: nonempty and all digits. -/
def charsToNat (l : List Char) : Option Nat :=
  if l.isEmpty then none
  else if l.all Char.isDigit then some (charsToNatAux 0 l) else none

/-- Parse of a decimal integer cell, with an optional leading minus sign. -/
def charsToInt (l : List Char) : Option Int :=
  match l with
  | [] => none
  | c :: rest =>
    if c = '-' then (charsToNat rest).map (fun n => -(n : Int))
    else (charsToNat (c :: rest)).map (fun n => (n : Int))

/-- The header cells of the exported table, in the column order of the
presentation schema. -/
def csvHeader : List (List Char) :=
  ["CustomerID".data, "Recency".data, "Frequency".data, "Monetary".data,
   "Cluster".data, "Segment".data]

/-- The cells of one exported row, in column order, values rendered
verbatim. -/
def recordToCells (r : Record) : List (List Char) :=
  [r.CustomerID.data, intChars r.Recency, intChars r.Frequency,
   intChars r.Monetary, intChars r.Cluster, r.Segment.data]

/-- Join of a list of cells with a separator character. -/
def joinWith (sep : Char) : List (List Char) → List Char
  | [] => []
  | [c] => c
  | c :: c' :: cs => c ++ sep :: joinWith sep (c' :: cs)

/-- `to_csv(index=False)`: a header line followed by one line per row, fields
comma-separated, each line terminated by a newline. -/
def to_csv (view : List Record) : List Char :=
  ((csvHeader :: view.map recordToCells).map
    (fun line => joinWith ',' line ++ ['\n'])).flatten

/-- Split of a character list at every occurrence of a separator. -/
def splitOnChar (sep : Char) : List Char → List (List Char)
  | [] => [[]]
  | c :: rest =>
    match splitOnChar sep rest with
    | [] => [[]]
    | g :: gs => if c = sep then [] :: g :: gs else (c :: g) :: gs

/-- Parse of one data line: exactly the six schema cells, the four numeric
columns parsed as integers, the two text columns taken verbatim. -/
def parseRecordCells : List (List Char) → Option Record
  | [idc, rec, freq, mon, clu, seg] =>
    match charsToInt rec, charsToInt freq, charsToInt mon, charsToInt clu with
    | some r, some f, some m, some c =>
      some { CustomerID := String.mk idc, Recency := r, Frequency := f,
             Monetary := m, Cluster := c, Segment := String.mk seg }
    | _, _, _, _ => none
  | _ => none

/-- Parse of the data lines, failing if any line fails. -/
def parseRows : List (List Char) → Option (List Record)
  | [] => some []
  | line :: rest =>
    match parseRecordCells (splitOnChar ',' line), parseRows rest with
    | some r, some rs => some (r :: rs)
    | _, _ => none

/-- Drops the blank line left behind by a trailing final newline, as
`read_csv` skips blank lines. -/
def dropTrailingBlank (lines : List (List Char)) : List (List Char) :=
  if lines.getLast? = some [] then lines.dropLast else lines

/-- `read_csv` on an export: split into lines (the trailing blank line from
the final newline is skipped), check the header, and parse each data line
with the presentation schema. -/
def read_csv (content : List Char) : Option (List Record) :=
  match dropTrailingBlank (splitOnChar '\n' content) with
  | [] => none
  | hdr :: rows =>
    if hdr = joinWith ',' csvHeader then parseRows rows else none

/-- The fuel-bounded digit renderer agrees with `Nat.digits` when the fuel
suffices. -/
theorem natCharsAux_eq_digits : ∀ f n : Nat, 0 < n → n ≤ f →
    natCharsAux f n = (Nat.digits 10 n).map Nat.digitChar := by
  intro f
  induction f with
  | zero => intro n h1 h2; omega
  | succ f ih =>
    intro n h1 h2
    obtain ⟨m, rfl⟩ : ∃ m, n = m + 1 := ⟨n - 1, by omega⟩
    rw [show natCharsAux (f + 1) (m + 1)
        = Nat.digitChar ((m + 1) % 10) :: natCharsAux f ((m + 1) / 10) from rfl]
    rw [Nat.digits_def' (by norm_num : (1 : ℕ) < 10) h1, List.map_cons]
    congr 1
    by_cases hz : (m + 1) / 10 = 0
    · rw [hz]
      rw [show natCharsAux f 0 = [] by cases f <;> rfl]
      simp
    · have hlt : (m + 1) / 10 < m + 1 := Nat.div_lt_self h1 (by norm_num)
      exact ih _ (Nat.pos_of_ne_zero hz) (by omega)

/-- Digit characters of digit values decode back to the digit. -/
theorem digitVal_digitChar : ∀ d : Nat, d < 10 → digitVal (Nat.digitChar d) = d := by
  decide

/-- Accumulating over a terminal digit character multiplies the accumulator by
ten and adds the digit. -/
theorem charsToNatAux_append_singleton : ∀ (l : List Char) (acc : Nat) (c : Char),
    charsToNatAux acc (l ++ [c]) = charsToNatAux acc l * 10 + digitVal c := by
  intro l acc c
  simp [charsToNatAux, List.foldl_append]

/-- Accumulating over a rendered digit list recovers the rendered value. -/
theorem charsToNatAux_digits : ∀ ds : List Nat, ∀ acc : Nat, (∀ d ∈ ds, d < 10) →
    charsToNatAux acc ((ds.map Nat.digitChar).reverse)
      = acc * 10 ^ ds.length + Nat.ofDigits 10 ds := by
  intro ds
  induction ds with
  | nil => intro acc h; simp [charsToNatAux]
  | cons d ds ih =>
    intro acc h
    rw [List.map_cons, List.reverse_cons, charsToNatAux_append_singleton]
    rw [ih acc (fun x hx => h x (List.mem_cons_of_mem _ hx))]
    rw [digitVal_digitChar d (h d (List.mem_cons_self _ _))]
    rw [Nat.ofDigits_cons]
    simp only [List.length_cons, pow_succ]
    ring

/-- Rendered naturals are nonempty all-digit cells that decode back. -/
theorem natChars_spec (n : Nat) :
    natChars n ≠ [] ∧ (natChars n).all Char.isDigit = true ∧
    charsToNat (natChars n) = some n := by
  by_cases h : n = 0
  · subst h
    refine ⟨by decide, by decide, by decide⟩
  · have hp : 0 < n := Nat.pos_of_ne_zero h
    have heq : natChars n = ((Nat.digits 10 n).map Nat.digitChar).reverse := by
      rw [natChars, if_neg h, natCharsAux_eq_digits n n hp le_rfl]
    have hds : ∀ d ∈ Nat.digits 10 n, d < 10 := fun d hd =>
      Nat.digits_lt_base (by norm_num) hd
    have hne : natChars n ≠ [] := by
      rw [heq]
      simp [Nat.digits_ne_nil_iff_ne_zero, h]
    have hall : (natChars n).all Char.isDigit = true := by
      rw [heq, List.all_eq_true]
      intro c hc
      rw [List.mem_reverse, List.mem_map] at hc
      obtain ⟨d, hd, rfl⟩ := hc
      exact digitChar_isDigit d (hds d hd)
    refine ⟨hne, hall, ?_⟩
    rw [charsToNat, if_neg (by simp [List.isEmpty_iff, hne]), if_pos hall]
    rw [heq, charsToNatAux_digits _ 0 hds]
    simp [Nat.ofDigits_digits]

/-- Every character of an integer rendering is a digit or the minus sign. -/
theorem intChars_chars {z : Int} : ∀ c ∈ intChars z, c.isDigit = true ∨ c = '-' := by
  intro c hc
  rw [intChars] at hc
  split at hc
  · rcases List.mem_cons.mp hc with rfl | hc'
    · exact Or.inr rfl
    · exact Or.inl (List.all_eq_true.mp (natChars_spec _).2.1 c hc')
  · exact Or.inl (List.all_eq_true.mp (natChars_spec _).2.1 c hc)

/-- Integer renderings decode back to the integer. -/
theorem charsToInt_intChars (z : Int) : charsToInt (intChars z) = some z := by
  rw [intChars]
  split
  · rename_i hneg
    show (if '-' = '-' then (charsToNat (natChars z.natAbs)).map (fun n => -(n : Int))
        else (charsToNat ('-' :: natChars z.natAbs)).map (fun n => (n : Int))) = some z
    rw [if_pos rfl, (natChars_spec z.natAbs).2.2]
    exact congrArg some (show -((z.natAbs : Nat) : Int) = z by omega)
  · rename_i hpos
    obtain ⟨hne, hall, hval⟩ := natChars_spec z.toNat
    rcases hl : natChars z.toNat with _ | ⟨c, cs⟩
    · exact absurd hl hne
    · rw [hl] at hval hall
      have hc : c.isDigit = true := List.all_eq_true.mp hall c (List.mem_cons_self _ _)
      have hcne : c ≠ '-' := by
        rintro rfl
        exact absurd hc (by decide)
      show (if c = '-' then (charsToNat cs).map (fun n => -(n : Int))
          else (charsToNat (c :: cs)).map (fun n => (n : Int))) = some z
      rw [if_neg hcne, hval]
      simp [Int.toNat_of_nonneg (not_lt.mp hpos)]

/-- Splitting never yields the empty group list. -/
theorem splitOnChar_ne_nil {sep : Char} : ∀ l : List Char, splitOnChar sep l ≠ [] := by
  intro l
  induction l with
  | nil => exact fun h => List.noConfusion h
  | cons c rest ih =>
    rcases hs : splitOnChar sep rest with _ | ⟨g, gs⟩
    · exact absurd hs ih
    · show (match splitOnChar sep rest with
        | [] => [[]]
        | g :: gs => if c = sep then [] :: g :: gs else (c :: g) :: gs) ≠ []
      rw [hs]
      by_cases hcs : c = sep <;> simp [hcs]

/-- Splitting a separator-free list yields that one cell. -/
theorem splitOnChar_of_not_mem {sep : Char} : ∀ {l : List Char}, sep ∉ l →
    splitOnChar sep l = [l] := by
  intro l
  induction l with
  | nil => intro _; rfl
  | cons c rest ih =>
    intro h
    have hc : c ≠ sep := fun hcc => h (hcc ▸ List.mem_cons_self _ _)
    have hrest : sep ∉ rest := fun hm => h (List.mem_cons_of_mem _ hm)
    show (match splitOnChar sep rest with
      | [] => [[]]
      | g :: gs => if c = sep then [] :: g :: gs else (c :: g) :: gs) = [c :: rest]
    rw [ih hrest]
    simp [hc]

/-- Splitting after a separator-free first cell peels it off. -/
theorem splitOnChar_append {sep : Char} : ∀ {l : List Char}, sep ∉ l →
    ∀ rest : List Char, splitOnChar sep (l ++ sep :: rest) = l :: splitOnChar sep rest := by
  intro l
  induction l with
  | nil =>
    intro _ rest
    obtain ⟨g, gs, hs⟩ : ∃ g gs, splitOnChar sep rest = g :: gs := by
      rcases h' : splitOnChar sep rest with _ | ⟨g, gs⟩
      · exact absurd h' (splitOnChar_ne_nil rest)
      · exact ⟨g, gs, rfl⟩
    show (match splitOnChar sep rest with
      | [] => [[]]
      | g :: gs => if sep = sep then [] :: g :: gs else (sep :: g) :: gs)
      = [] :: splitOnChar sep rest
    rw [hs]
    simp
  | cons c l ih =>
    intro h rest
    have hc : c ≠ sep := fun hcc => h (hcc ▸ List.mem_cons_self _ _)
    have hl : sep ∉ l := fun hm => h (List.mem_cons_of_mem _ hm)
    show (match splitOnChar sep (l ++ sep :: rest) with
      | [] => [[]]
      | g :: gs => if c = sep then [] :: g :: gs else (c :: g) :: gs)
      = (c :: l) :: splitOnChar sep rest
    rw [ih hl rest]
    simp [hc]

/-- Splitting on the separator inverts joining with it. -/
theorem splitOnChar_joinWith {sep : Char} : ∀ cells : List (List Char), cells ≠ [] →
    (∀ cell ∈ cells, sep ∉ cell) →
    splitOnChar sep (joinWith sep cells) = cells := by
  intro cells
  induction cells with
  | nil => intro h _; exact absurd rfl h
  | cons c cs ih =>
    intro _ hfree
    rcases cs with _ | ⟨c', cs'⟩
    · show splitOnChar sep (joinWith sep [c]) = [c]
      rw [show joinWith sep [c] = c from rfl]
      exact splitOnChar_of_not_mem (hfree c (List.mem_cons_self _ _))
    · rw [show joinWith sep (c :: c' :: cs') = c ++ sep :: joinWith sep (c' :: cs') from rfl]
      rw [splitOnChar_append (hfree c (List.mem_cons_self _ _))]
      rw [ih (by simp) (fun cell hc => hfree cell (List.mem_cons_of_mem _ hc))]

/-- Splitting a newline-terminated line block recovers the lines, plus the
final blank. -/
theorem splitOnChar_lines {sep : Char} : ∀ lines : List (List Char),
    (∀ l ∈ lines, sep ∉ l) →
    splitOnChar sep ((lines.map (fun l => l ++ [sep])).flatten) = lines ++ [[]] := by
  intro lines
  induction lines with
  | nil => intro _; rfl
  | cons l ls ih =>
    intro hfree
    rw [List.map_cons, List.flatten_cons]
    rw [show (l ++ [sep]) ++ (ls.map (fun l => l ++ [sep])).flatten
        = l ++ sep :: (ls.map (fun l => l ++ [sep])).flatten by simp]
    rw [splitOnChar_append (hfree l (List.mem_cons_self _ _))]
    rw [ih (fun x hx => hfree x (List.mem_cons_of_mem _ hx))]
    rfl

/-- A character of a joined cell list is the separator or comes from one
cell. -/
theorem mem_joinWith {sep : Char} {c : Char} : ∀ {cells : List (List Char)},
    c ∈ joinWith sep cells → c = sep ∨ ∃ cell ∈ cells, c ∈ cell := by
  intro cells
  induction cells with
  | nil => intro h; cases h
  | cons x cs ih =>
    intro h
    rcases cs with _ | ⟨y, ys⟩
    · exact Or.inr ⟨x, List.mem_cons_self _ _, h⟩
    · rw [show joinWith sep (x :: y :: ys) = x ++ sep :: joinWith sep (y :: ys) from rfl] at h
      rcases List.mem_append.mp h with h | h
      · exact Or.inr ⟨x, List.mem_cons_self _ _, h⟩
      · rcases List.mem_cons.mp h with rfl | h
        · exact Or.inl rfl
        · rcases ih h with h | ⟨cell, hc, hcc⟩
          · exact Or.inl h
          · exact Or.inr ⟨cell, List.mem_cons_of_mem _ hc, hcc⟩

/-- A character that is neither a digit nor the minus sign never occurs in an
integer rendering. -/
theorem not_mem_intChars {z : Int} {c : Char} (h1 : c.isDigit = false)
    (h2 : c ≠ '-') : c ∉ intChars z := by
  intro hm
  rcases intChars_chars c hm with h | h
  · rw [h1] at h
    exact Bool.noConfusion h
  · exact h2 h

/-- One exported data line parses back to its record. -/
theorem parseRecordCells_recordToCells (r : Record) :
    parseRecordCells (recordToCells r) = some r := by
  show (match charsToInt (intChars r.Recency), charsToInt (intChars r.Frequency),
      charsToInt (intChars r.Monetary), charsToInt (intChars r.Cluster) with
    | some a, some f, some m, some c =>
      some { CustomerID := String.mk r.CustomerID.data, Recency := a, Frequency := f,
             Monetary := m, Cluster := c, Segment := String.mk r.Segment.data }
    | _, _, _, _ => none) = some r
  rw [charsToInt_intChars, charsToInt_intChars, charsToInt_intChars, charsToInt_intChars]

/-- No comma occurs in any cell of an exported row whose text fields are
comma-free. -/
theorem recordToCells_comma_free {r : Record}
    (h1 : ',' ∉ r.CustomerID.data) (h2 : ',' ∉ r.Segment.data) :
    ∀ cell ∈ recordToCells r, ',' ∉ cell := by
  intro cell hcell
  simp only [recordToCells, List.mem_cons, List.not_mem_nil, or_false] at hcell
  rcases hcell with rfl | rfl | rfl | rfl | rfl | rfl
  · exact h1
  · exact not_mem_intChars (by decide) (by decide)
  · exact not_mem_intChars (by decide) (by decide)
  · exact not_mem_intChars (by decide) (by decide)
  · exact not_mem_intChars (by decide) (by decide)
  · exact h2

/-- The exported data lines parse back to the exported records. -/
theorem parseRows_map (view : List Record)
    (hsafe : ∀ r ∈ view, ',' ∉ r.CustomerID.data ∧ ',' ∉ r.Segment.data) :
    parseRows (view.map (fun r => joinWith ',' (recordToCells r))) = some view := by
  induction view with
  | nil => rfl
  | cons r rs ih =>
    rw [List.map_cons]
    show (match parseRecordCells (splitOnChar ',' (joinWith ',' (recordToCells r))),
        parseRows (rs.map (fun r => joinWith ',' (recordToCells r))) with
      | some a, some as => some (a :: as)
      | _, _ => none) = some (r :: rs)
    rw [splitOnChar_joinWith (recordToCells r) (by simp [recordToCells])
      (recordToCells_comma_free (hsafe r (List.mem_cons_self _ _)).1
        (hsafe r (List.mem_cons_self _ _)).2)]
    rw [parseRecordCells_recordToCells,
      ih (fun x hx => hsafe x (List.mem_cons_of_mem _ hx))]

/-- Claim C7: exporting the filtered view to the delimited format and
re-loading the export yields a table with identical row count, column set and
order, and field values taken verbatim from the source records.  The two
free-text columns are assumed free of the delimiter and newline characters
(pandas quotes such fields; quoting is not modelled). -/
theorem csv_round_trip (view : List Record)
    (hsafe : ∀ r ∈ view,
      (',' ∉ r.CustomerID.data ∧ '\n' ∉ r.CustomerID.data) ∧
      (',' ∉ r.Segment.data ∧ '\n' ∉ r.Segment.data)) :
    read_csv (to_csv view) = some view := by
  have hnl : ∀ l ∈ (csvHeader :: view.map recordToCells).map
      (fun cells => joinWith ',' cells), '\n' ∉ l := by
    intro l hl
    obtain ⟨cells, hcells, rfl⟩ := List.mem_map.mp hl
    intro hm
    rcases mem_joinWith hm with h | ⟨cell, hcell, hmc⟩
    · exact absurd h (by decide)
    · rcases List.mem_cons.mp hcells with rfl | hcells'
      · revert hmc
        have : ∀ cell ∈ csvHeader, '\n' ∉ cell := by decide
        exact this cell hcell
      · obtain ⟨r, hr, rfl⟩ := List.mem_map.mp hcells'
        revert hmc
        simp only [recordToCells, List.mem_cons, List.not_mem_nil, or_false] at hcell
        rcases hcell with rfl | rfl | rfl | rfl | rfl | rfl
        · exact (hsafe r hr).1.2
        · exact not_mem_intChars (by decide) (by decide)
        · exact not_mem_intChars (by decide) (by decide)
        · exact not_mem_intChars (by decide) (by decide)
        · exact not_mem_intChars (by decide) (by decide)
        · exact (hsafe r hr).2.2
  have hto : to_csv view
      = ((((csvHeader :: view.map recordToCells).map (fun cells => joinWith ',' cells)).map
          (fun l => l ++ ['\n'])).flatten) := by
    rw [to_csv, List.map_map]
    rfl
  have hsplit : splitOnChar '\n' (to_csv view)
      = ((csvHeader :: view.map recordToCells).map (fun cells => joinWith ',' cells)) ++ [[]] := by
    rw [hto]
    exact splitOnChar_lines _ hnl
  have h1 : dropTrailingBlank (splitOnChar '\n' (to_csv view))
      = (csvHeader :: view.map recordToCells).map (fun cells => joinWith ',' cells) := by
    rw [hsplit, dropTrailingBlank, if_pos (List.getLast?_concat _)]
    exact List.dropLast_concat
  unfold read_csv
  rw [h1, List.map_cons]
  show (if joinWith ',' csvHeader = joinWith ',' csvHeader
      then parseRows ((view.map recordToCells).map (fun cells => joinWith ',' cells))
      else none) = some view
  rw [if_pos rfl, List.map_map]
  rw [show ((fun cells => joinWith ',' cells) ∘ recordToCells)
      = (fun r => joinWith ',' (recordToCells r)) from rfl]
  exact parseRows_map view (fun r hr => ⟨(hsafe r hr).1.1, (hsafe r hr).2.1⟩)

/-- Witness for C7: the demonstration table round-trips through the export
and re-import. -/
theorem csv_round_trip_witness : read_csv (to_csv demoTable) = some demoTable :=
  csv_round_trip demoTable (by decide)
